import Mathlib

/-!
Verification of the NTSC encoder/decoder core (`src/ntsc.rs`,
`src/ntsc/encoder.rs`, `src/ntsc/decoder.rs`).

The Rust code computes over `f32` (`SignalFloat`); the embedding models the
scalar type as `ℝ`, `u32` arithmetic as `ℕ` with explicit `% 2 ^ 32` where the
source can wrap, the saturating `f32 -> u32` cast as `u32cast`, and the Rust
`%` operator on floats (truncated remainder) as `rmod`.  Operations that can
panic in Rust (indexing an empty buffer, remainder by zero) return `Option`.
-/

open Real

noncomputable section

namespace Ntsc

/-- `NTSC_COLOR_CARRIER_FREQ` from `src/ntsc.rs`. -/
def NTSC_COLOR_CARRIER_FREQ : ℝ := 3.579545e6

/-- `NTSC_SCANLINE_COUNT` from `src/ntsc.rs` (a `u32`). -/
def NTSC_SCANLINE_COUNT : ℕ := 525

/-- `NTSC_SCANLINE_PERIOD` from `src/ntsc.rs`. -/
def NTSC_SCANLINE_PERIOD : ℝ := 64e-6

/-- `NTSC_IMAGE_PERIOD = NTSC_SCANLINE_PERIOD * NTSC_SCANLINE_COUNT`. -/
def NTSC_IMAGE_PERIOD : ℝ := NTSC_SCANLINE_PERIOD * (NTSC_SCANLINE_COUNT : ℝ)

/-- Truncation toward zero, the rounding used by Rust float `%`. -/
def rtrunc (x : ℝ) : ℤ := if 0 ≤ x then ⌊x⌋ else ⌈x⌉

/-- Rust `%` on floats: remainder with truncated quotient. -/
def rmod (x p : ℝ) : ℝ := x - p * (rtrunc (x / p) : ℝ)

/-- Rust `as u32` on a float: truncate toward zero, saturating at `0` and
`u32::MAX` (negative inputs go to `0`). -/
def u32cast (x : ℝ) : ℕ := min (⌊x⌋.toNat) (2 ^ 32 - 1)

/-- `PixelSample` from `src/types.rs`: one RGBA8 pixel (bytes as `ℕ`). -/
def PixelSample := ℕ × ℕ × ℕ × ℕ

/-- `RgbSample` from `src/types.rs`. -/
def RgbSample := ℝ × ℝ × ℝ

/-- `SrgbSample` from `src/types.rs`. -/
def SrgbSample := ℝ × ℝ × ℝ

/-- `YiqSample` from `src/types.rs`. -/
def YiqSample := ℝ × ℝ × ℝ

/-- The `NtscEncoder` struct from `src/ntsc/encoder.rs`: `width`/`height` are
`u32` (kept `< 2 ^ 32` by the constructors), `pixel_buffer` a byte vector. -/
structure NtscEncoder where
  width : ℕ
  height : ℕ
  pixel_buffer : List ℕ

namespace NtscEncoder

/-- `NtscEncoder::new`: zero-filled buffer of `width * height * 4` bytes,
the size being computed in `u32` (hence the wrap `% 2 ^ 32`). -/
def new (width height : ℕ) : NtscEncoder :=
  { width := width % 2 ^ 32
    height := height % 2 ^ 32
    pixel_buffer := List.replicate (width % 2 ^ 32 * (height % 2 ^ 32) * 4 % 2 ^ 32) 0 }

/-- `NtscEncoder::sample_index`: `idx * 4` is computed in `u32` (wraps), then
reduced `% pixel_buffer.len()`, then four bytes are read.  `none` models the
Rust panics (remainder by zero on an empty buffer, out-of-range slice). -/
def sample_index (e : NtscEncoder) (idx : ℕ) : Option PixelSample :=
  let i := idx * 4 % 2 ^ 32 % e.pixel_buffer.length
  (e.pixel_buffer[i]?).bind fun r =>
    (e.pixel_buffer[i + 1]?).bind fun g =>
      (e.pixel_buffer[i + 2]?).bind fun b =>
        (e.pixel_buffer[i + 3]?).map fun a => (r, g, b, a)

/-- `NtscEncoder::rgba8_to_rgbf`: normalize bytes to `[0,1]`, dropping alpha. -/
def rgba8_to_rgbf : PixelSample → RgbSample
  | (r, g, b, _) => ((r : ℝ) / 255, (g : ℝ) / 255, (b : ℝ) / 255)

/-- `NtscEncoder::sample_pixel`: scale normalized coordinates by width/height,
cast to `u32`, clamp to `[0, width]` (resp. `[0, height]`; the upper clamp
bound in the source is the dimension itself, not `dimension - 1`), then read
the pixel at index `y * width + x` through `sample_index`. -/
def sample_pixel (e : NtscEncoder) (x y : ℝ) : Option SrgbSample :=
  let xi := min (u32cast (x * (e.width : ℝ))) e.width
  let yi := min (u32cast (y * (e.height : ℝ))) e.height
  let idx := (yi * e.width + xi) % 2 ^ 32
  (e.sample_index idx).map rgba8_to_rgbf

/-- `NtscEncoder::srgb_to_yiq`. -/
def srgb_to_yiq : SrgbSample → YiqSample
  | (r, g, b) =>
    let y := 0.3 * r + 0.59 * g + 0.11 * b
    let i := -0.27 * (b - y) + 0.74 * (r - y)
    let q := 0.41 * (b - y) + 0.48 * (r - y)
    (y, i, q)

/-- The body of `NtscEncoder::sample` after the initial
`time % NTSC_IMAGE_PERIOD` reduction. -/
def sampleAt (e : NtscEncoder) (time : ℝ) : Option ℝ :=
  let y := ((u32cast (time / NTSC_SCANLINE_PERIOD) : ℕ) : ℝ) / (NTSC_SCANLINE_COUNT : ℝ)
  let x := rmod time NTSC_SCANLINE_PERIOD / NTSC_SCANLINE_PERIOD
  (e.sample_pixel x y).map fun p =>
    let yiq := srgb_to_yiq p
    yiq.1 + yiq.2.1 * Real.sin (time * 2 * π * NTSC_COLOR_CARRIER_FREQ)
      + yiq.2.2 * Real.cos (time * 2 * π * NTSC_COLOR_CARRIER_FREQ)

/-- `NtscEncoder::sample`: reduce the time modulo the image period, then
sample the pixel under that time and remodulate. -/
def sample (e : NtscEncoder) (time : ℝ) : Option ℝ :=
  e.sampleAt (rmod time NTSC_IMAGE_PERIOD)

end NtscEncoder

/-- Modelled from the spec: `generate_color_carrier` is referenced by
`src/ntsc/decoder.rs` but its definition is not among the provided sources.
The spec says the decoder accumulates `I += amplitude * sin(2π * f_c * time)`
and `Q += amplitude * cos(2π * f_c * time)`, so the in-phase carrier is the
sine and the quadrature carrier the cosine at the subcarrier frequency. -/
def generate_color_carrier (time : ℝ) (in_phase : Bool) : ℝ :=
  if in_phase then Real.sin (2 * π * NTSC_COLOR_CARRIER_FREQ * time)
  else Real.cos (2 * π * NTSC_COLOR_CARRIER_FREQ * time)

/-- The `NtscDecoder` struct from `src/ntsc/decoder.rs`: the `VecDeque`
window is modelled as a list, front first. -/
structure NtscDecoder where
  sample_count : ℕ
  sample_queue : List (ℝ × ℝ)

namespace NtscDecoder

/-- `NtscDecoder::new`. -/
def new (sample_count : ℕ) : NtscDecoder :=
  { sample_count := sample_count, sample_queue := [] }

/-- The `while self.sample_queue.len() > self.sample_count { pop_front }`
loop of `push_sample`. -/
def trimFront (n : ℕ) : List (ℝ × ℝ) → List (ℝ × ℝ)
  | [] => []
  | x :: xs => if n < xs.length + 1 then trimFront n xs else x :: xs

/-- `NtscDecoder::push_sample`: append at the back, then pop from the front
while the queue is longer than `sample_count`. -/
def push_sample (d : NtscDecoder) (time value : ℝ) : NtscDecoder :=
  { d with sample_queue := trimFront d.sample_count (d.sample_queue ++ [(time, value)]) }

/-- Push a whole list of samples in order (how a driver feeds the decoder). -/
def pushList (d : NtscDecoder) (l : List (ℝ × ℝ)) : NtscDecoder :=
  l.foldl (fun d s => d.push_sample s.1 s.2) d

/-- `NtscDecoder::yiq_to_rgb`. -/
def yiq_to_rgb : YiqSample → SrgbSample
  | (y, i, q) => (y + 0.9469 * i + 0.6236 * q, y - 0.2748 * i - 0.6357 * q, y - 1.1 * i + 1.7 * q)

/-- `NtscDecoder::srgb_to_rgb`: channel-wise `powf(2.2)`. -/
def srgb_to_rgb : SrgbSample → RgbSample
  | (r, g, b) => (Real.rpow r 2.2, Real.rpow g 2.2, Real.rpow b 2.2)

/-- The accumulation loop of `NtscDecoder::decode`: sum the samples and their
products with the in-phase/quadrature carriers, average by `sample_count`,
scale chroma by `4`. -/
def demodYiq (d : NtscDecoder) : YiqSample :=
  let y := (d.sample_queue.map fun s => s.2).sum
  let i := (d.sample_queue.map fun s => s.2 * generate_color_carrier s.1 true).sum
  let q := (d.sample_queue.map fun s => s.2 * generate_color_carrier s.1 false).sum
  let n : ℝ := (d.sample_count : ℝ)
  (y / n, i / n * 4, q / n * 4)

/-- The at-capacity branch of `NtscDecoder::decode`. -/
def decodeAtCapacity (d : NtscDecoder) (srgb : Bool) : RgbSample :=
  let color := yiq_to_rgb d.demodYiq
  if srgb then srgb_to_rgb color else color

/-- `NtscDecoder::decode`: demodulate when the queue is exactly at capacity,
otherwise return the black sentinel. -/
def decode (d : NtscDecoder) (srgb : Bool) : RgbSample :=
  if d.sample_queue.length = d.sample_count then d.decodeAtCapacity srgb
  else ((0 : ℝ), (0 : ℝ), (0 : ℝ))

end NtscDecoder

/-- A 1x1 all-zero raster, as built by `NtscEncoder::new(1, 1)`. -/
def encoderA : NtscEncoder := NtscEncoder.new 1 1

/-- A 2x2 raster whose last pixel (row 1, column 1) is opaque white and whose
other three pixels are transparent black. -/
def encoderB : NtscEncoder :=
  { width := 2, height := 2,
    pixel_buffer := [0, 0, 0, 0, 0, 0, 0, 0, 0, 0, 0, 0, 255, 255, 255, 255] }

/-- A 1x1 raster with a transparent black pixel. -/
def encoderC : NtscEncoder := { width := 1, height := 1, pixel_buffer := [0, 0, 0, 0] }

/-- A 1x1 raster equal to `encoderC` except for the alpha byte. -/
def encoderD : NtscEncoder := { width := 1, height := 1, pixel_buffer := [0, 0, 0, 7] }

/-- A capacity-1 decoder holding the single sample `(0, 1)` (at capacity). -/
def decoder1 : NtscDecoder := { sample_count := 1, sample_queue := [((0 : ℝ), (1 : ℝ))] }

end Ntsc

end

namespace Ntsc

namespace NtscDecoder

lemma trimFront_eq_drop (n : ℕ) (l : List (ℝ × ℝ)) :
    trimFront n l = l.drop (l.length - n) := by
  induction l with
  | nil => simp [trimFront]
  | cons x xs ih =>
    simp only [trimFront, List.length_cons]
    split
    · rw [ih]
      have h : xs.length + 1 - n = (xs.length - n) + 1 := by omega
      rw [h, List.drop_succ_cons]
    · have h : xs.length + 1 - n = 0 := by omega
      rw [h, List.drop_zero]

lemma push_sample_count (d : NtscDecoder) (t v : ℝ) :
    (d.push_sample t v).sample_count = d.sample_count := rfl

lemma push_sample_queue (d : NtscDecoder) (t v : ℝ) :
    (d.push_sample t v).sample_queue =
      (d.sample_queue ++ [(t, v)]).drop (d.sample_queue.length + 1 - d.sample_count) := by
  simp [push_sample, trimFront_eq_drop]

lemma pushList_count (d : NtscDecoder) (l : List (ℝ × ℝ)) :
    (d.pushList l).sample_count = d.sample_count := by
  induction l generalizing d with
  | nil => rfl
  | cons s l ih => simpa [pushList] using ih (d.push_sample s.1 s.2)

lemma pushList_queue (l : List (ℝ × ℝ)) (d : NtscDecoder)
    (hd : d.sample_queue.length ≤ d.sample_count) :
    (d.pushList l).sample_queue =
      (d.sample_queue ++ l).drop (d.sample_queue.length + l.length - d.sample_count) := by
  induction l generalizing d with
  | nil => simp [pushList, Nat.sub_eq_zero_of_le hd]
  | cons s l ih =>
    have hstep : pushList d (s :: l) = pushList (d.push_sample s.1 s.2) l := rfl
    have hq1 := push_sample_queue d s.1 s.2
    have hlen1 : (d.push_sample s.1 s.2).sample_queue.length ≤
        (d.push_sample s.1 s.2).sample_count := by
      rw [hq1, push_sample_count]
      simp only [List.length_drop, List.length_append, List.length_cons, List.length_nil]
      omega
    have := ih (d.push_sample s.1 s.2) hlen1
    rw [hstep, this, hq1, push_sample_count]
    have hsplit : d.sample_queue ++ s :: l = (d.sample_queue ++ [(s.1, s.2)]) ++ l := by simp
    rw [hsplit]
    have ha : d.sample_queue.length + 1 - d.sample_count ≤
        (d.sample_queue ++ [(s.1, s.2)]).length := by
      simp
    rw [← List.drop_append_of_le_length ha, List.drop_drop]
    congr 1
    simp only [List.length_drop, List.length_append, List.length_cons, List.length_nil]
    omega

lemma pushList_new_queue (N : ℕ) (l : List (ℝ × ℝ)) :
    ((new N).pushList l).sample_queue = l.drop (l.length - N) := by
  simpa [new] using pushList_queue l (new N) (by simp [new])

lemma pushList_new_count (N : ℕ) (l : List (ℝ × ℝ)) :
    ((new N).pushList l).sample_count = N :=
  pushList_count (new N) l

end NtscDecoder

lemma NTSC_IMAGE_PERIOD_pos : 0 < NTSC_IMAGE_PERIOD := by
  norm_num [NTSC_IMAGE_PERIOD, NTSC_SCANLINE_PERIOD, NTSC_SCANLINE_COUNT]

lemma rmod_zero_left (p : ℝ) : rmod 0 p = 0 := by
  simp [rmod, rtrunc]

lemma rmod_add_right (t p : ℝ) (ht : 0 ≤ t) (hp : 0 < p) :
    rmod (t + p) p = rmod t p := by
  unfold rmod rtrunc
  have h1 : 0 ≤ t / p := div_nonneg ht hp.le
  have h2 : 0 ≤ (t + p) / p := div_nonneg (by linarith) hp.le
  rw [if_pos h1, if_pos h2]
  have h3 : (t + p) / p = t / p + 1 := by field_simp
  rw [h3, Int.floor_add_one]
  push_cast
  ring

namespace NtscEncoder

lemma sample_index_isSome (e : NtscEncoder) (h4 : 4 ∣ e.pixel_buffer.length)
    (hne : e.pixel_buffer.length ≠ 0) (idx : ℕ) :
    (e.sample_index idx).isSome := by
  simp only [sample_index]
  have hi : idx * 4 % 2 ^ 32 % e.pixel_buffer.length < e.pixel_buffer.length :=
    Nat.mod_lt _ (Nat.pos_of_ne_zero hne)
  have h4m : (4 : ℕ) ∣ idx * 4 % 2 ^ 32 :=
    (Nat.dvd_mod_iff (by norm_num)).2 ⟨idx, by ring⟩
  have h4i : (4 : ℕ) ∣ idx * 4 % 2 ^ 32 % e.pixel_buffer.length :=
    (Nat.dvd_mod_iff h4).2 h4m
  have h3 : idx * 4 % 2 ^ 32 % e.pixel_buffer.length + 3 < e.pixel_buffer.length := by
    omega
  have g0 := List.getElem?_eq_getElem (l := e.pixel_buffer) (by omega :
    idx * 4 % 2 ^ 32 % e.pixel_buffer.length < e.pixel_buffer.length)
  have g1 := List.getElem?_eq_getElem (l := e.pixel_buffer) (by omega :
    idx * 4 % 2 ^ 32 % e.pixel_buffer.length + 1 < e.pixel_buffer.length)
  have g2 := List.getElem?_eq_getElem (l := e.pixel_buffer) (by omega :
    idx * 4 % 2 ^ 32 % e.pixel_buffer.length + 2 < e.pixel_buffer.length)
  have g3 := List.getElem?_eq_getElem (l := e.pixel_buffer) (by omega :
    idx * 4 % 2 ^ 32 % e.pixel_buffer.length + 3 < e.pixel_buffer.length)
  rw [g0, g1, g2, g3]
  simp

lemma sample_pixel_isSome (e : NtscEncoder) (h4 : 4 ∣ e.pixel_buffer.length)
    (hne : e.pixel_buffer.length ≠ 0) (x y : ℝ) :
    (e.sample_pixel x y).isSome := by
  simp only [sample_pixel]
  rw [Option.isSome_map']
  exact e.sample_index_isSome h4 hne _

lemma sample_index_alpha_congr (e1 e2 : NtscEncoder)
    (hlen : e1.pixel_buffer.length = e2.pixel_buffer.length)
    (h4 : 4 ∣ e1.pixel_buffer.length)
    (hbytes : ∀ j, j < e1.pixel_buffer.length → j % 4 ≠ 3 →
        e1.pixel_buffer[j]? = e2.pixel_buffer[j]?) (idx : ℕ) :
    (e1.sample_index idx).map rgba8_to_rgbf = (e2.sample_index idx).map rgba8_to_rgbf := by
  simp only [sample_index, ← hlen]
  by_cases hz : e1.pixel_buffer.length = 0
  · have h1 : e1.pixel_buffer = [] := List.eq_nil_of_length_eq_zero hz
    have h2 : e2.pixel_buffer = [] := List.eq_nil_of_length_eq_zero (by omega)
    rw [h1, h2]
  · have hi : idx * 4 % 2 ^ 32 % e1.pixel_buffer.length < e1.pixel_buffer.length :=
      Nat.mod_lt _ (Nat.pos_of_ne_zero hz)
    have h4m : (4 : ℕ) ∣ idx * 4 % 2 ^ 32 :=
      (Nat.dvd_mod_iff (by norm_num)).2 ⟨idx, by ring⟩
    have h4i : (4 : ℕ) ∣ idx * 4 % 2 ^ 32 % e1.pixel_buffer.length :=
      (Nat.dvd_mod_iff h4).2 h4m
    have hb0 : e1.pixel_buffer[idx * 4 % 2 ^ 32 % e1.pixel_buffer.length]? =
        e2.pixel_buffer[idx * 4 % 2 ^ 32 % e1.pixel_buffer.length]? :=
      hbytes _ (by omega) (by omega)
    have hb1 : e1.pixel_buffer[idx * 4 % 2 ^ 32 % e1.pixel_buffer.length + 1]? =
        e2.pixel_buffer[idx * 4 % 2 ^ 32 % e1.pixel_buffer.length + 1]? :=
      hbytes _ (by omega) (by omega)
    have hb2 : e1.pixel_buffer[idx * 4 % 2 ^ 32 % e1.pixel_buffer.length + 2]? =
        e2.pixel_buffer[idx * 4 % 2 ^ 32 % e1.pixel_buffer.length + 2]? :=
      hbytes _ (by omega) (by omega)
    have g0 := List.getElem?_eq_getElem (l := e1.pixel_buffer) (by omega :
      idx * 4 % 2 ^ 32 % e1.pixel_buffer.length < e1.pixel_buffer.length)
    have g1 := List.getElem?_eq_getElem (l := e1.pixel_buffer) (by omega :
      idx * 4 % 2 ^ 32 % e1.pixel_buffer.length + 1 < e1.pixel_buffer.length)
    have g2 := List.getElem?_eq_getElem (l := e1.pixel_buffer) (by omega :
      idx * 4 % 2 ^ 32 % e1.pixel_buffer.length + 2 < e1.pixel_buffer.length)
    have g3 := List.getElem?_eq_getElem (l := e1.pixel_buffer) (by omega :
      idx * 4 % 2 ^ 32 % e1.pixel_buffer.length + 3 < e1.pixel_buffer.length)
    have g3' := List.getElem?_eq_getElem (l := e2.pixel_buffer) (by omega :
      idx * 4 % 2 ^ 32 % e1.pixel_buffer.length + 3 < e2.pixel_buffer.length)
    rw [← hb0, ← hb1, ← hb2, g0, g1, g2, g3, g3']
    simp [rgba8_to_rgbf]

end NtscEncoder

lemma encoderA_buffer : encoderA.pixel_buffer = [0, 0, 0, 0] := by
  show List.replicate (1 % 2 ^ 32 * (1 % 2 ^ 32) * 4 % 2 ^ 32) 0 = [0, 0, 0, 0]
  norm_num [List.replicate]

end Ntsc

namespace Ntsc

/-- Claim C1 (code bug): on the 2x2 raster `encoderB` whose only non-black
pixel is the last one (row 1, column 1, opaque white), `sample_pixel` at the
normalized coordinates `(1.0, 1.0)` returns black — the color of the pixel at
row 1, column 0 reached by clamping the coordinate to `width`/`height`
instead of `width - 1`/`height - 1` and wrapping the resulting index modulo
the buffer — and not the last row/column's pixel, whose color is white. -/
theorem claim_C1_boundary_clamp :
    encoderB.sample_pixel 1 1 = some ((0 : ℝ), 0, 0) ∧
    encoderB.sample_index (1 * encoderB.width + 1) = some (255, 255, 255, 255) ∧
    NtscEncoder.rgba8_to_rgbf (255, 255, 255, 255) = ((1 : ℝ), 1, 1) ∧
    ((0 : ℝ), (0 : ℝ), (0 : ℝ)) ≠ ((1 : ℝ), (1 : ℝ), (1 : ℝ)) := by
  refine ⟨?_, ?_, ?_, ?_⟩
  · have hc : u32cast ((1 : ℝ) * ((2 : ℕ) : ℝ)) = 2 := by
      norm_num [u32cast]
      rfl
    simp only [NtscEncoder.sample_pixel, encoderB]
    rw [hc]
    norm_num
    have h6 : NtscEncoder.sample_index
        { width := 2, height := 2,
          pixel_buffer := [0, 0, 0, 0, 0, 0, 0, 0, 0, 0, 0, 0, 255, 255, 255, 255] } 6 =
        some (0, 0, 0, 0) := rfl
    rw [h6]
    simp [NtscEncoder.rgba8_to_rgbf]
  · rfl
  · simp [NtscEncoder.rgba8_to_rgbf]
  · simp [Prod.ext_iff]

/-- Claim C2 counterexample: the encoder built by `new(0, 0)` has an empty
pixel buffer, and `sample` reaches the remainder-by-zero/out-of-bounds panic
(modelled as `none`), so the operations are not total for every `width` and
`height`. -/
theorem claim_C2_counterexample : (NtscEncoder.new 0 0).sample 0 = none := by
  have hbuf : (NtscEncoder.new 0 0).pixel_buffer = [] := by
    show List.replicate (0 % 2 ^ 32 * (0 % 2 ^ 32) * 4 % 2 ^ 32) 0 = []
    norm_num
  simp only [NtscEncoder.sample, NtscEncoder.sampleAt, NtscEncoder.sample_pixel,
    NtscEncoder.sample_index, hbuf]
  simp

/-- Claim C2 (amended): for every encoder whose pixel buffer is nonempty with
length a multiple of 4 — which holds for every buffer either constructor
produces except the empty one — `sample` is total: it always returns a value
and never reaches an out-of-bounds access or remainder by zero.
(`push_sample` and the color transforms are total by construction for all
inputs.) -/
theorem claim_C2_total_sampling (e : NtscEncoder) (t : ℝ)
    (h4 : 4 ∣ e.pixel_buffer.length) (hne : e.pixel_buffer.length ≠ 0) :
    (e.sample t).isSome := by
  simp only [NtscEncoder.sample, NtscEncoder.sampleAt]
  rw [Option.isSome_map']
  exact NtscEncoder.sample_pixel_isSome e h4 hne _ _

/-- Witness for claim C2's amended theorem at the 1x1 encoder built by
`new(1, 1)` and time 0. -/
theorem claim_C2_witness :
    (4 ∣ encoderA.pixel_buffer.length) ∧ encoderA.pixel_buffer.length ≠ 0 ∧
      (encoderA.sample 0).isSome :=
  ⟨by rw [encoderA_buffer]; decide, by rw [encoderA_buffer]; decide,
    claim_C2_total_sampling encoderA 0 (by rw [encoderA_buffer]; decide)
      (by rw [encoderA_buffer]; decide)⟩

/-- Claim C3: a decoder constructed with `window_size = N`, `N ≥ 1`, decodes
to the black sentinel `(0, 0, 0)` on every call made while fewer than `N`
samples have been pushed, and decodes through the at-capacity demodulation
branch on every call made once at least `N` samples have been pushed (in
particular immediately after the `N`-th push). -/
theorem claim_C3_warmup_black (N : ℕ) (hN : 1 ≤ N) (l : List (ℝ × ℝ)) (b : Bool) :
    (l.length < N →
      ((NtscDecoder.new N).pushList l).decode b = ((0 : ℝ), (0 : ℝ), (0 : ℝ))) ∧
    (N ≤ l.length →
      ((NtscDecoder.new N).pushList l).decode b =
        ((NtscDecoder.new N).pushList l).decodeAtCapacity b) := by
  have hq := NtscDecoder.pushList_new_queue N l
  have hc := NtscDecoder.pushList_new_count N l
  refine ⟨fun h => ?_, fun h => ?_⟩
  · have hlen : ((NtscDecoder.new N).pushList l).sample_queue.length = l.length := by
      rw [hq, List.length_drop]; omega
    unfold NtscDecoder.decode
    rw [hlen, hc, if_neg (by omega)]
  · have hlen : ((NtscDecoder.new N).pushList l).sample_queue.length = N := by
      rw [hq, List.length_drop]; omega
    unfold NtscDecoder.decode
    rw [hlen, hc, if_pos rfl]

/-- Witness for claim C3 with `N = 2` and a single pushed sample: the decode
result is the black sentinel. -/
theorem claim_C3_witness :
    (1 : ℕ) ≤ 2 ∧ [((0 : ℝ), (1 : ℝ))].length < 2 ∧
      ((NtscDecoder.new 2).pushList [((0 : ℝ), (1 : ℝ))]).decode false =
        ((0 : ℝ), (0 : ℝ), (0 : ℝ)) :=
  ⟨by decide, by decide,
    (claim_C3_warmup_black 2 (by decide) [((0 : ℝ), (1 : ℝ))] false).1 (by decide)⟩

/-- Claim C4: after pushing `window_size + k` samples the decoder's window
holds exactly the last `window_size` pushed samples in push order, and the
window length never exceeds `window_size` after any sequence of pushes
(oldest entries are evicted first). -/
theorem claim_C4_window_eviction (N k : ℕ) (l : List (ℝ × ℝ)) (h : l.length = N + k) :
    ((NtscDecoder.new N).pushList l).sample_queue = l.drop k ∧
    (∀ l2 : List (ℝ × ℝ), ((NtscDecoder.new N).pushList l2).sample_queue.length ≤ N) := by
  constructor
  · rw [NtscDecoder.pushList_new_queue]; congr 1; omega
  · intro l2; rw [NtscDecoder.pushList_new_queue, List.length_drop]; omega

/-- Witness for claim C4: pushing two samples into a decoder of capacity 1
leaves exactly the second sample in the window. -/
theorem claim_C4_witness :
    [((0 : ℝ), (0 : ℝ)), ((1 : ℝ), (2 : ℝ))].length = 1 + 1 ∧
      ((NtscDecoder.new 1).pushList [((0 : ℝ), (0 : ℝ)), ((1 : ℝ), (2 : ℝ))]).sample_queue =
        [((0 : ℝ), (0 : ℝ)), ((1 : ℝ), (2 : ℝ))].drop 1 :=
  ⟨by decide, (claim_C4_window_eviction 1 1 _ (by decide)).1⟩

/-- Claim C5: for a decoder at capacity `N ≥ 1` holding samples `(t, v)`,
`decode` without gamma returns exactly `(Y + 0.9469 I + 0.6236 Q,
Y - 0.2748 I - 0.6357 Q, Y - 1.1 I + 1.7 Q)` with `Y = (Σ v) / N`,
`I = (Σ v sin(2π f_c t)) * 4 / N` and `Q = (Σ v cos(2π f_c t)) * 4 / N`. -/
theorem claim_C5_decode_formula (d : NtscDecoder) (N : ℕ) (hN : 1 ≤ N)
    (hcount : d.sample_count = N) (hlen : d.sample_queue.length = N) :
    d.decode false =
      ((d.sample_queue.map fun s => s.2).sum / (N : ℝ)
          + 0.9469 * ((d.sample_queue.map fun s =>
              s.2 * Real.sin (2 * π * NTSC_COLOR_CARRIER_FREQ * s.1)).sum * 4 / (N : ℝ))
          + 0.6236 * ((d.sample_queue.map fun s =>
              s.2 * Real.cos (2 * π * NTSC_COLOR_CARRIER_FREQ * s.1)).sum * 4 / (N : ℝ)),
        (d.sample_queue.map fun s => s.2).sum / (N : ℝ)
          - 0.2748 * ((d.sample_queue.map fun s =>
              s.2 * Real.sin (2 * π * NTSC_COLOR_CARRIER_FREQ * s.1)).sum * 4 / (N : ℝ))
          - 0.6357 * ((d.sample_queue.map fun s =>
              s.2 * Real.cos (2 * π * NTSC_COLOR_CARRIER_FREQ * s.1)).sum * 4 / (N : ℝ)),
        (d.sample_queue.map fun s => s.2).sum / (N : ℝ)
          - 1.1 * ((d.sample_queue.map fun s =>
              s.2 * Real.sin (2 * π * NTSC_COLOR_CARRIER_FREQ * s.1)).sum * 4 / (N : ℝ))
          + 1.7 * ((d.sample_queue.map fun s =>
              s.2 * Real.cos (2 * π * NTSC_COLOR_CARRIER_FREQ * s.1)).sum * 4 / (N : ℝ))) := by
  have hif : d.sample_queue.length = d.sample_count := by rw [hcount, hlen]
  unfold NtscDecoder.decode
  rw [if_pos hif]
  unfold NtscDecoder.decodeAtCapacity NtscDecoder.demodYiq NtscDecoder.yiq_to_rgb
    generate_color_carrier
  simp only [Bool.false_eq_true, if_false, if_true, hcount]
  refine Prod.ext ?_ (Prod.ext ?_ ?_) <;> simp <;> ring

/-- Witness for claim C5 at a capacity-1 decoder holding the sample
`(0, 1)`. -/
theorem claim_C5_witness :
    (1 : ℕ) ≤ 1 ∧
      decoder1.decode false =
        (([((0 : ℝ), (1 : ℝ))].map fun s => s.2).sum / ((1 : ℕ) : ℝ)
            + 0.9469 * (([((0 : ℝ), (1 : ℝ))].map fun s =>
                s.2 * Real.sin (2 * π * NTSC_COLOR_CARRIER_FREQ * s.1)).sum * 4 / ((1 : ℕ) : ℝ))
            + 0.6236 * (([((0 : ℝ), (1 : ℝ))].map fun s =>
                s.2 * Real.cos (2 * π * NTSC_COLOR_CARRIER_FREQ * s.1)).sum * 4 / ((1 : ℕ) : ℝ)),
          ([((0 : ℝ), (1 : ℝ))].map fun s => s.2).sum / ((1 : ℕ) : ℝ)
            - 0.2748 * (([((0 : ℝ), (1 : ℝ))].map fun s =>
                s.2 * Real.sin (2 * π * NTSC_COLOR_CARRIER_FREQ * s.1)).sum * 4 / ((1 : ℕ) : ℝ))
            - 0.6357 * (([((0 : ℝ), (1 : ℝ))].map fun s =>
                s.2 * Real.cos (2 * π * NTSC_COLOR_CARRIER_FREQ * s.1)).sum * 4 / ((1 : ℕ) : ℝ)),
          ([((0 : ℝ), (1 : ℝ))].map fun s => s.2).sum / ((1 : ℕ) : ℝ)
            - 1.1 * (([((0 : ℝ), (1 : ℝ))].map fun s =>
                s.2 * Real.sin (2 * π * NTSC_COLOR_CARRIER_FREQ * s.1)).sum * 4 / ((1 : ℕ) : ℝ))
            + 1.7 * (([((0 : ℝ), (1 : ℝ))].map fun s =>
                s.2 * Real.cos (2 * π * NTSC_COLOR_CARRIER_FREQ * s.1)).sum * 4 / ((1 : ℕ) : ℝ))) :=
  ⟨by decide, claim_C5_decode_formula decoder1 1 (by decide) rfl rfl⟩

/-- Claim C6: for every encoder and time `t`, `sample t` equals
`Y + I sin(2π f_c t') + Q cos(2π f_c t')` where `t'` is `t` reduced modulo
the image period, `(R, G, B)` is the selected pixel's color normalized to
`[0, 1]` (the value produced by `sample_pixel` at the derived coordinates),
`Y = 0.30R + 0.59G + 0.11B`, `I = 0.74(R - Y) - 0.27(B - Y)` and
`Q = 0.48(R - Y) + 0.41(B - Y)`. -/
theorem claim_C6_sample_formula (e : NtscEncoder) (t : ℝ) :
    e.sample t =
      (e.sample_pixel
          (rmod (rmod t NTSC_IMAGE_PERIOD) NTSC_SCANLINE_PERIOD / NTSC_SCANLINE_PERIOD)
          (((u32cast (rmod t NTSC_IMAGE_PERIOD / NTSC_SCANLINE_PERIOD) : ℕ) : ℝ) /
            (NTSC_SCANLINE_COUNT : ℝ))).map
        (fun p =>
          (0.3 * p.1 + 0.59 * p.2.1 + 0.11 * p.2.2)
            + (0.74 * (p.1 - (0.3 * p.1 + 0.59 * p.2.1 + 0.11 * p.2.2))
                - 0.27 * (p.2.2 - (0.3 * p.1 + 0.59 * p.2.1 + 0.11 * p.2.2)))
              * Real.sin (2 * π * NTSC_COLOR_CARRIER_FREQ * rmod t NTSC_IMAGE_PERIOD)
            + (0.48 * (p.1 - (0.3 * p.1 + 0.59 * p.2.1 + 0.11 * p.2.2))
                + 0.41 * (p.2.2 - (0.3 * p.1 + 0.59 * p.2.1 + 0.11 * p.2.2)))
              * Real.cos (2 * π * NTSC_COLOR_CARRIER_FREQ * rmod t NTSC_IMAGE_PERIOD)) := by
  simp only [NtscEncoder.sample, NtscEncoder.sampleAt]
  cases hop : e.sample_pixel
      (rmod (rmod t NTSC_IMAGE_PERIOD) NTSC_SCANLINE_PERIOD / NTSC_SCANLINE_PERIOD)
      (((u32cast (rmod t NTSC_IMAGE_PERIOD / NTSC_SCANLINE_PERIOD) : ℕ) : ℝ) /
        (NTSC_SCANLINE_COUNT : ℝ)) with
  | none => rfl
  | some p =>
    obtain ⟨r, g, b⟩ := p
    simp only [Option.map_some', Option.some.injEq, NtscEncoder.srgb_to_yiq]
    rw [show rmod t NTSC_IMAGE_PERIOD * 2 * π * NTSC_COLOR_CARRIER_FREQ
        = 2 * π * NTSC_COLOR_CARRIER_FREQ * rmod t NTSC_IMAGE_PERIOD by ring]
    ring

/-- Claim C7: the composite signal is exactly periodic over one full frame:
for every encoder and every time `t ≥ 0`,
`sample t = sample (t + NTSC_IMAGE_PERIOD)`. -/
theorem claim_C7_periodicity (e : NtscEncoder) (t : ℝ) (ht : 0 ≤ t) :
    e.sample t = e.sample (t + NTSC_IMAGE_PERIOD) := by
  unfold NtscEncoder.sample
  rw [rmod_add_right t NTSC_IMAGE_PERIOD ht NTSC_IMAGE_PERIOD_pos]

/-- Witness for claim C7 at the 1x1 encoder and `t = 0`. -/
theorem claim_C7_witness :
    (0 : ℝ) ≤ 0 ∧ encoderA.sample 0 = encoderA.sample (0 + NTSC_IMAGE_PERIOD) :=
  ⟨le_refl 0, claim_C7_periodicity encoderA 0 (le_refl 0)⟩

/-- Claim C8: for a decoder exactly at capacity, `decode` with gamma applied
is the channel-wise `2.2` power of `decode` without gamma, and `decode`
without gamma is the raw YIQ-to-RGB matrix result with no clamping or other
post-processing. -/
theorem claim_C8_gamma (d : NtscDecoder) (h : d.sample_queue.length = d.sample_count) :
    d.decode true =
      (Real.rpow (d.decode false).1 2.2, Real.rpow (d.decode false).2.1 2.2,
        Real.rpow (d.decode false).2.2 2.2) ∧
    d.decode false = NtscDecoder.yiq_to_rgb d.demodYiq := by
  have h1 : d.decode false = NtscDecoder.yiq_to_rgb d.demodYiq := by
    unfold NtscDecoder.decode
    rw [if_pos h]
    unfold NtscDecoder.decodeAtCapacity
    simp only [Bool.false_eq_true, if_false]
  have h2 : d.decode true = NtscDecoder.srgb_to_rgb (NtscDecoder.yiq_to_rgb d.demodYiq) := by
    unfold NtscDecoder.decode
    rw [if_pos h]
    unfold NtscDecoder.decodeAtCapacity
    simp only [if_true]
  refine ⟨?_, h1⟩
  rw [h1, h2]
  rfl

/-- Witness for claim C8 at a capacity-1 decoder holding the sample
`(0, 1)`. -/
theorem claim_C8_witness :
    decoder1.sample_queue.length = decoder1.sample_count ∧
      (decoder1.decode true =
        (Real.rpow (decoder1.decode false).1 2.2,
          Real.rpow (decoder1.decode false).2.1 2.2,
          Real.rpow (decoder1.decode false).2.2 2.2) ∧
       decoder1.decode false = NtscDecoder.yiq_to_rgb decoder1.demodYiq) :=
  ⟨rfl, claim_C8_gamma decoder1 rfl⟩

/-- Claim C9: two encoders with equal width, height and buffer length
(`width * height * 4` each) whose buffers agree on every byte except
possibly the alpha bytes (positions `≡ 3 mod 4`) produce the same `sample`
output at every time: the alpha channel never influences the signal. -/
theorem claim_C9_alpha_independence (e1 e2 : NtscEncoder)
    (hw : e1.width = e2.width) (hh : e1.height = e2.height)
    (hl1 : e1.pixel_buffer.length = e1.width * e1.height * 4)
    (hl2 : e2.pixel_buffer.length = e2.width * e2.height * 4)
    (hbytes : ∀ j, j < e1.pixel_buffer.length → j % 4 ≠ 3 →
        e1.pixel_buffer[j]? = e2.pixel_buffer[j]?) (t : ℝ) :
    e1.sample t = e2.sample t := by
  have hlen : e1.pixel_buffer.length = e2.pixel_buffer.length := by
    rw [hl1, hl2, hw, hh]
  have h4 : 4 ∣ e1.pixel_buffer.length := by
    rw [hl1]; exact ⟨e1.width * e1.height, by ring⟩
  simp only [NtscEncoder.sample, NtscEncoder.sampleAt, NtscEncoder.sample_pixel, ← hw, ← hh]
  exact congrArg _ (NtscEncoder.sample_index_alpha_congr e1 e2 hlen h4 hbytes _)

/-- Witness for claim C9: two 1x1 rasters differing only in the alpha byte
give the same sample at `t = 0`. -/
theorem claim_C9_witness :
    encoderC.width = encoderD.width ∧ encoderC.height = encoderD.height ∧
    encoderC.pixel_buffer.length = encoderC.width * encoderC.height * 4 ∧
    encoderD.pixel_buffer.length = encoderD.width * encoderD.height * 4 ∧
    (∀ j, j < encoderC.pixel_buffer.length → j % 4 ≠ 3 →
      encoderC.pixel_buffer[j]? = encoderD.pixel_buffer[j]?) ∧
    encoderC.sample 0 = encoderD.sample 0 :=
  ⟨rfl, rfl, rfl, rfl, by decide,
    claim_C9_alpha_independence encoderC encoderD rfl rfl rfl rfl (by decide) 0⟩

/-- Claim C10: a decoder constructed with `window_size = 0` always trims its
queue back to empty, so the queue length 0 equals the capacity 0 and every
`decode` call takes the at-capacity demodulation branch — dividing the empty
sums by the zero sample count — instead of the warm-up sentinel branch. -/
theorem claim_C10_zero_window (l : List (ℝ × ℝ)) (b : Bool) :
    ((NtscDecoder.new 0).pushList l).sample_queue = [] ∧
    ((NtscDecoder.new 0).pushList l).decode b =
      ((NtscDecoder.new 0).pushList l).decodeAtCapacity b := by
  have hq : ((NtscDecoder.new 0).pushList l).sample_queue = [] := by
    rw [NtscDecoder.pushList_new_queue]; simp
  refine ⟨hq, ?_⟩
  have hc := NtscDecoder.pushList_new_count 0 l
  unfold NtscDecoder.decode
  rw [hq, hc, List.length_nil, if_pos rfl]

end Ntsc
